import Mathlib

/-!
Verification of the standings/analytics aggregation engine of the `ff`
repository against its natural-language specification.

The definitions below are a shallow embedding of the Python sources:

* `src/ff/compute/core.py` — `compute_standings_with_groups`,
  `current_streak`, `longest_streaks` (the copy in
  `src/scripts/lib/compute.py` has identical bodies for the fragments
  embedded here);
* `src/ff/report/collect.py` — the all-play / median kernels of
  `StatisticsCalculator.calculate_all_play_and_median_records` and of
  `build_weekly_context_original`.

Python dictionaries are embedded as insertion-ordered association lists,
floats as exact rationals (`ℚ`), machine exceptions as `Except Unit`, and
Python's stable `list.sort` as `List.insertionSort` with the corresponding
lexicographic key (stable sorts with a total preorder key have a unique
output, so this is output-equivalent to CPython's sort).
-/

/-- Dynamic Python value, restricted to the shapes reaching the `points`
field of a matchup row: `None`/absent, a number (ints and floats collapse
to `ℚ`), a string, or a boolean. -/
inductive PyVal where
  | none
  | num (q : ℚ)
  | str (s : String)
  | bool (b : Bool)
deriving Repr, DecidableEq

/-- Python truthiness for the values of `PyVal`. -/
def pyTruthy : PyVal → Bool
  | .none => false
  | .num q => q != 0
  | .str s => s != ""
  | .bool b => b

/-- The expression `v or 0` from the sources: a falsy value is replaced by
the integer `0`. -/
def orZero (v : PyVal) : PyVal := if pyTruthy v then v else .num 0

/-- Value of a list of decimal digit characters, most significant first. -/
def digitsVal (cs : List Char) : ℚ :=
  cs.foldl (fun acc c => acc * 10 + ((c.toNat - 48 : ℕ) : ℚ)) 0

/-- Decimal fragment of CPython `float(str)` parsing: optional sign, an
integer part and an optional fractional part, at least one digit overall.
Strings outside this fragment (empty, alphabetic, …) fail to parse, which
models the `ValueError` CPython raises for them. -/
def parseFloat? (s : String) : Option ℚ :=
  let cs := s.toList
  let signRest : ℚ × List Char :=
    match cs with
    | '-' :: r => (-1, r)
    | '+' :: r => (1, r)
    | r => (1, r)
  let ip := signRest.2.takeWhile Char.isDigit
  let rest := signRest.2.dropWhile Char.isDigit
  match rest with
  | [] => if ip.isEmpty then Option.none else some (signRest.1 * digitsVal ip)
  | '.' :: frac =>
    if frac.all Char.isDigit && !(ip.isEmpty && frac.isEmpty) then
      some (signRest.1 * (digitsVal ip + digitsVal frac / 10 ^ frac.length))
    else Option.none
  | _ => Option.none

/-- CPython `float(v)`: numbers pass through, booleans become 0/1, strings
are parsed (raising on failure), `None` raises `TypeError`. Exceptions are
modelled by `Except.error ()`. -/
def pyFloat : PyVal → Except Unit ℚ
  | .none => .error ()
  | .num q => .ok q
  | .bool b => .ok (if b then 1 else 0)
  | .str s =>
    match parseFloat? s with
    | some q => .ok q
    | Option.none => .error ()

/-- One participant row of a matchup group: `roster_id` (absent or an
integer) and the raw `points` value. Rows whose `roster_id` is an integer
pass through the source's `_coerce_int` unchanged, so the embedding
specialises that field to `Option Int`. -/
structure Entry where
  roster_id : Option Int
  points : PyVal
deriving Repr, DecidableEq

/-- Entry with an already-numeric points value. -/
def mkEntryQ (e : Option Int × ℚ) : Entry := ⟨e.1, PyVal.num e.2⟩

/-- Accumulator record for one roster, as built by
`compute_standings_with_groups` before the table pass. -/
structure Rec where
  roster_id : Int
  wins : Int
  losses : Int
  ties : Int
  points_for : ℚ
  points_against : ℚ
deriving Repr, DecidableEq

/-- Fresh record as inserted by `records.setdefault(rid, {...})`. -/
def newRec (rid : Int) : Rec := ⟨rid, 0, 0, 0, 0, 0⟩

/-- Insertion-ordered model of `records.setdefault(rid, {...})`: append a
fresh record unless one with this roster id already exists. -/
def setdefault (recs : List Rec) (rid : Int) : List Rec :=
  if recs.any (fun r => r.roster_id == rid) then recs else recs ++ [newRec rid]

/-- In-place mutation of the record stored under `rid`: rewrite the first
(and, by `setdefault` discipline, only) record with that roster id. -/
def updateRec : List Rec → Int → (Rec → Rec) → List Rec
  | [], _, _ => []
  | r :: rs, rid, f => if r.roster_id = rid then f r :: rs else r :: updateRec rs rid f

def addPF (x : ℚ) (r : Rec) : Rec := { r with points_for := r.points_for + x }

def addPA (x : ℚ) (r : Rec) : Rec := { r with points_against := r.points_against + x }

def addWins (x : Int) (r : Rec) : Rec := { r with wins := r.wins + x }

def addLosses (x : Int) (r : Rec) : Rec := { r with losses := r.losses + x }

def addTies (x : Int) (r : Rec) : Rec := { r with ties := r.ties + x }

/-- Dictionary lookup `records.get(rid)`. -/
def getRec (recs : List Rec) (rid : Int) : Option Rec :=
  recs.find? (fun r => r.roster_id == rid)

def winsOf (recs : List Rec) (rid : Int) : Int := ((getRec recs rid).map Rec.wins).getD 0

def lossesOf (recs : List Rec) (rid : Int) : Int := ((getRec recs rid).map Rec.losses).getD 0

def tiesOf (recs : List Rec) (rid : Int) : Int := ((getRec recs rid).map Rec.ties).getD 0

def pfOf (recs : List Rec) (rid : Int) : ℚ := ((getRec recs rid).map Rec.points_for).getD 0

def paOf (recs : List Rec) (rid : Int) : ℚ := ((getRec recs rid).map Rec.points_against).getD 0

def sumPF (recs : List Rec) : ℚ := (recs.map Rec.points_for).sum

def sumPA (recs : List Rec) : ℚ := (recs.map Rec.points_against).sum

/-- The `setdefault` / `points_for +=` / `points_against +=` sequence the
aggregator performs for one credited entry. -/
def creditEntry (recs : List Rec) (rid : Int) (own opp : ℚ) : List Rec :=
  updateRec (updateRec (setdefault recs rid) rid (addPF own)) rid (addPA opp)

/-- Body of `for e in (a, b): ...` in the two-entry branch of
`compute_standings_with_groups` (core.py:44-63): skip an entry without a
roster id, otherwise credit own score to `points_for` and the opponent's
score to `points_against`. -/
def pairEntryStep (recs : List Rec) (e opp : Entry) : Except Unit (List Rec) :=
  match e.roster_id with
  | Option.none => pure recs
  | some rid => do
    let ep ← pyFloat (orZero e.points)
    let op ← pyFloat (orZero opp.points)
    pure (creditEntry recs rid ep op)

/-- Two-entry branch of `compute_standings_with_groups` (core.py:43-81):
points accumulation for both entries, then win/loss/tie attribution when
both roster ids are present. -/
def processPair (recs : List Rec) (a b : Entry) : Except Unit (List Rec) := do
  let recs1 ← pairEntryStep recs a b
  let recs2 ← pairEntryStep recs1 b a
  let ap ← pyFloat (orZero a.points)
  let bp ← pyFloat (orZero b.points)
  match a.roster_id, b.roster_id with
  | some ar, some br =>
    if ap > bp then
      pure (updateRec (updateRec recs2 ar (addWins 1)) br (addLosses 1))
    else if bp > ap then
      pure (updateRec (updateRec recs2 br (addWins 1)) ar (addLosses 1))
    else
      pure (updateRec (updateRec recs2 ar (addTies 1)) br (addTies 1))
  | _, _ => pure recs2

/-- Body of the `for i, e in enumerate(entries)` loop in the non-two-entry
branch (core.py:82-100): each entry with a roster id gets its own score as
`points_for` and the rest of the group total as `points_against`. -/
def otherEntryStep (total : ℚ) (recs : List Rec) (etp : Entry × ℚ) : List Rec :=
  match etp.1.roster_id with
  | Option.none => recs
  | some rid => creditEntry recs rid etp.2 (total - etp.2)

/-- Non-two-entry branch of `compute_standings_with_groups`
(core.py:81-100): coerce every entry's points (`total_points`), then credit
each entry. -/
def processOther (recs : List Rec) (entries : List Entry) : Except Unit (List Rec) := do
  let tps ← entries.mapM (fun e => pyFloat (orZero e.points))
  pure ((entries.zip tps).foldl (otherEntryStep tps.sum) recs)

/-- Dispatch on `len(entries) == 2`. -/
def processGroup (recs : List Rec) (entries : List Entry) : Except Unit (List Rec) :=
  match entries with
  | [a, b] => processPair recs a b
  | l => processOther recs l

/-- One week of accumulation: iterate the week's matchup groups in
insertion order. -/
def processWeek (recs : List Rec) (groups : List (List Entry)) : Except Unit (List Rec) :=
  groups.foldlM processGroup recs

/-- A season's grouped matchups: week number to the week's matchup groups
(the groups' dictionary keys are never read by the aggregator, so only the
ordered list of groups is kept). -/
abbrev WeeklyGroups := List (Int × List (List Entry))

/-- The week iteration `range(start_week, max(start_week, end_week) + 1)`. -/
def weeksRange (s e : Int) : List Int :=
  (List.range (max s e + 1 - s).toNat).map (fun i => s + (i : Int))

/-- Dictionary access `weekly_groups.get(wk, {})`. -/
def lookupWeek (wg : WeeklyGroups) (wk : Int) : List (List Entry) :=
  ((wg.find? (fun p => p.1 == wk)).map Prod.snd).getD []

/-- Accumulation phase of `compute_standings_with_groups` (core.py:37-100):
fold every matchup group of every week in range into the records map. -/
def accumulate (wg : WeeklyGroups) (s e : Int) : Except Unit (List Rec) :=
  (weeksRange s e).foldlM (fun recs wk => processWeek recs (lookupWeek wg wk)) []

/-- Round-half-to-even to an integer, the rounding CPython's `round` uses,
applied to the exact rational value. -/
def roundHalfEven (q : ℚ) : ℤ :=
  let f := ⌊q⌋
  let r := q - f
  if r < 1 / 2 then f
  else if r > 1 / 2 then f + 1
  else if f % 2 = 0 then f else f + 1

/-- Python `round(q, d)`. -/
def roundTo (d : ℕ) (q : ℚ) : ℚ := (roundHalfEven (q * 10 ^ d) : ℚ) / 10 ^ d

/-- One row of the returned standings table. -/
structure RowOut where
  roster_id : Int
  wins : Int
  losses : Int
  ties : Int
  points_for : ℚ
  points_against : ℚ
  games : Int
  win_pct : ℚ
deriving Repr, DecidableEq

/-- Table pass of `compute_standings_with_groups` (core.py:101-114):
`games`, `win_pct` (rounded to 4 places), and `points_for` /
`points_against` rounded to 2 places. -/
def buildRow (rec : Rec) : RowOut :=
  let g : Int := rec.wins + rec.losses + rec.ties
  let wp : ℚ := if g = 0 then 0 else ((rec.wins : ℚ) + (1 / 2) * (rec.ties : ℚ)) / (g : ℚ)
  { roster_id := rec.roster_id, wins := rec.wins, losses := rec.losses, ties := rec.ties,
    points_for := roundTo 2 rec.points_for, points_against := roundTo 2 rec.points_against,
    games := g, win_pct := roundTo 4 wp }

/-- The sort key `(-win_pct, -points_for, roster_id)` of core.py:115 as a
total preorder on output rows (note that it reads the rounded fields). -/
def rowLEP (r1 r2 : RowOut) : Prop :=
  r2.win_pct < r1.win_pct ∨
    (r1.win_pct = r2.win_pct ∧
      (r2.points_for < r1.points_for ∨
        (r1.points_for = r2.points_for ∧ r1.roster_id ≤ r2.roster_id)))

instance : DecidableRel rowLEP := fun r1 r2 => by unfold rowLEP; infer_instance

/-- `compute_standings_with_groups` (core.py:34-116): accumulate, build the
display table, and sort it by `(-win_pct, -points_for, roster_id)` with a
stable sort, as CPython's `list.sort` does. -/
def compute_standings_with_groups (wg : WeeklyGroups) (start_week end_week : Int) :
    Except Unit (List RowOut) := do
  let recs ← accumulate wg start_week end_week
  pure (List.insertionSort rowLEP (recs.map buildRow))

/-- Backward walk of `current_streak` (core.py:155-165): starting from the
most recent game, seed the streak from the first non-tie outcome and extend
it while outcomes match; a tie or a mismatch stops the walk. The state is
`(streak_type, length, start_wk)`. -/
def streakLoop : List (Int × String) → String → Int → Int → String × Int × Int
  | [], st, len, sw => (st, len, sw)
  | (week, res) :: rest, st, len, sw =>
    if res = "T" then (st, len, sw)
    else if st = "none" then streakLoop rest res 1 week
    else if res = st then streakLoop rest st (len + 1) week
    else (st, len, sw)

/-- `current_streak` (core.py:148-169): filter results up to `through_week`
and walk them from most recent backwards. -/
def current_streak (res_list : List (Int × String)) (through_week : Int) :
    String × Int × Int × Int :=
  let filtered := res_list.filter (fun t => t.1 ≤ through_week)
  if filtered = [] then ("none", 0, 0, through_week)
  else
    let r := streakLoop filtered.reverse "none" 0 through_week
    if r.1 = "none" then ("none", 0, 0, through_week)
    else (r.1, r.2.1, r.2.2, through_week)

/-- Span label `f"w{start}-w{end}"` used by `longest_streaks`. -/
def spanLabel (s e : Int) : String := "w" ++ toString s ++ "-w" ++ toString e

/-- Scan state of `longest_streaks`: best win and loss streaks so far and
the current run. Python's `cur_start = None` placeholder is modelled as
`0`; it is only ever rendered after a week has been assigned. -/
structure LSState where
  best_win : Int × String
  best_loss : Int × String
  cur_type : Option String
  cur_len : Int
  cur_start : Int
deriving Repr, DecidableEq

/-- The pair of `if cur_type == "W" / == "L"` finalisation blocks of
`longest_streaks`, closing the span label at week `wk`. -/
def lsFinalize (st : LSState) (wk : Int) : LSState :=
  let bw := if st.cur_type = some "W" ∧ st.best_win.1 < st.cur_len then
      (st.cur_len, spanLabel st.cur_start wk) else st.best_win
  let bl := if st.cur_type = some "L" ∧ st.best_loss.1 < st.cur_len then
      (st.cur_len, spanLabel st.cur_start wk) else st.best_loss
  { st with best_win := bw, best_loss := bl }

/-- Loop body of `longest_streaks` (core.py:180-197): a tie finalises and
clears the current run; a matching outcome extends it; anything else
finalises the old run and starts a new one at this week. -/
def lsStep (st : LSState) (wr : Int × String) : LSState :=
  if wr.2 = "T" then
    let st1 := lsFinalize st wr.1
    { st1 with cur_type := Option.none, cur_len := 0, cur_start := 0 }
  else if some wr.2 = st.cur_type then
    { st with cur_len := st.cur_len + 1 }
  else
    let st1 := lsFinalize st wr.1
    { st1 with cur_type := some wr.2, cur_len := 1, cur_start := wr.1 }

/-- `longest_streaks` (core.py:172-203): forward scan over the filtered
results, with a final flush that closes any live run at `through_week`. -/
def longest_streaks (res_list : List (Int × String)) (through_week : Int) :
    (Int × String) × (Int × String) :=
  let filtered := res_list.filter (fun t => t.1 ≤ through_week)
  let st := filtered.foldl lsStep ⟨(0, "-"), (0, "-"), Option.none, 0, 0⟩
  let fin := lsFinalize st through_week
  (fin.best_win, fin.best_loss)

/-- Sequence of `n` consecutive wins recorded at weeks `a, a+1, …`. -/
def winRun (a : Int) : ℕ → List (Int × String)
  | 0 => []
  | n + 1 => (a, "W") :: winRun (a + 1) n

/-- The algorithm of `statistics.median` on a list of scores, which is also
the inline median computation of `build_weekly_context_original`
(collect.py:2257-2262): sort, take the middle element for odd length, the
mean of the two middle elements for even length. -/
def pyMedian (scores : List ℚ) : ℚ :=
  let ss := List.insertionSort (fun a b : ℚ => a ≤ b) scores
  let n := scores.length
  let mid := n / 2
  if n % 2 = 1 then ss.getD mid 0
  else (1 / 2) * (ss.getD (mid - 1) 0 + ss.getD mid 0)

/-- Per-participant weekly median update of `build_weekly_context_original`
(collect.py:2263-2270): strictly above the median counts a median win,
strictly below a median loss, equality splits 0.5/0.5. -/
def ctx_median_step (score medv : ℚ) : ℚ × ℚ :=
  if score > medv then (1, 0) else if score < medv then (0, 1) else (1 / 2, 1 / 2)

/-- Per-participant weekly median update of
`StatisticsCalculator.calculate_all_play_and_median_records`
(collect.py:753-756): `points >= week_median` counts a full median win,
otherwise a full median loss. -/
def sc_median_step (points medv : ℚ) : Int × Int :=
  if points ≥ medv then (1, 0) else (0, 1)

/-- Per-participant weekly all-play record of
`build_weekly_context_original` (collect.py:2250-2256): wins are the
strictly lower scores plus half of the equal scores of the other
participants; losses are the remainder of the `n - 1` comparisons. -/
def all_play_week (score : ℚ) (scores : List ℚ) : ℚ × ℚ :=
  let wins : ℚ := ((scores.filter (fun s => s < score)).length : ℚ)
  let ties : ℚ := ((scores.filter (fun s => s = score)).length : ℚ) - 1
  let apw := wins + (1 / 2) * ties
  (apw, ((scores.length : ℚ) - 1) - apw)

/-- Inner comparison loop of
`StatisticsCalculator.calculate_all_play_and_median_records`
(collect.py:777-783): one of my scores against every score of the week;
strictly higher adds an all-play win, strictly lower an all-play loss,
equality adds nothing. -/
def sc_count (wl : Int × Int) (my : ℚ) (all_scores : List ℚ) : Int × Int :=
  all_scores.foldl
    (fun wl2 other =>
      if my > other then (wl2.1 + 1, wl2.2)
      else if my < other then (wl2.1, wl2.2 + 1)
      else wl2)
    wl

/-- One week of the all-play accumulation of
`StatisticsCalculator.calculate_all_play_and_median_records`
(collect.py:765-783) for roster `rid`, over the flattened `(roster_id,
points)` entries of the week. -/
def sc_week_all_play (rid : Int) (entries : List (Int × ℚ)) : Int × Int :=
  let all_scores := entries.map Prod.snd
  let my_scores := (entries.filter (fun e => e.1 == rid)).map Prod.snd
  my_scores.foldl (fun wl my => sc_count wl my all_scores) (0, 0)

/-- Total of a group's scores (`sum(total_points)`). -/
def totalPoints (l : List (Option Int × ℚ)) : ℚ := (l.map Prod.snd).sum

/-- Sum of the scores of the entries of a group carrying roster id `rid`. -/
def ownPoints (l : List (Option Int × ℚ)) (rid : Int) : ℚ :=
  ((l.filter (fun e => e.1 == some rid)).map Prod.snd).sum

/-- Sum, over the entries of a group carrying roster id `rid`, of the other
entries' scores. -/
def againstPoints (l : List (Option Int × ℚ)) (rid : Int) : ℚ :=
  ((l.filter (fun e => e.1 == some rid)).map (fun e => totalPoints l - e.2)).sum

/-- Every matchup group in the requested range has exactly two entries,
each with a roster id. -/
def allPairs (wg : WeeklyGroups) (s e : Int) : Prop :=
  ∀ wk ∈ weeksRange s e, ∀ g ∈ lookupWeek wg wk, g.length = 2 ∧ ∀ x ∈ g, x.roster_id.isSome

instance : IsTotal RowOut rowLEP :=
  ⟨fun a b => by
    unfold rowLEP
    rcases lt_trichotomy a.win_pct b.win_pct with h | h | h
    · exact Or.inr (Or.inl h)
    · rcases lt_trichotomy a.points_for b.points_for with h2 | h2 | h2
      · exact Or.inr (Or.inr ⟨h.symm, Or.inl h2⟩)
      · rcases le_total a.roster_id b.roster_id with h3 | h3
        · exact Or.inl (Or.inr ⟨h, Or.inr ⟨h2, h3⟩⟩)
        · exact Or.inr (Or.inr ⟨h.symm, Or.inr ⟨h2.symm, h3⟩⟩)
      · exact Or.inl (Or.inr ⟨h, Or.inl h2⟩)
    · exact Or.inl (Or.inl h)⟩

instance : IsTrans RowOut rowLEP :=
  ⟨fun a b c hab hbc => by
    unfold rowLEP at hab hbc ⊢
    rcases hab with h1 | ⟨e1, hab2⟩
    · rcases hbc with h2 | ⟨e2, _⟩
      · exact Or.inl (lt_trans h2 h1)
      · exact Or.inl (by rw [← e2]; exact h1)
    · rcases hbc with h2 | ⟨e2, hbc2⟩
      · exact Or.inl (by rw [e1]; exact h2)
      · refine Or.inr ⟨e1.trans e2, ?_⟩
        rcases hab2 with p1 | ⟨p2, p3⟩
        · rcases hbc2 with q1 | ⟨q2, _⟩
          · exact Or.inl (lt_trans q1 p1)
          · exact Or.inl (by rw [← q2]; exact p1)
        · rcases hbc2 with q1 | ⟨q2, q3⟩
          · exact Or.inl (by rw [p2]; exact q1)
          · exact Or.inr ⟨p2.trans q2, le_trans p3 q3⟩⟩

/-- Input refuting the unrounded tie-break reading: roster 1 accumulates
100.001 points for, roster 2 accumulates 100.003, both finish 1-1, and
both totals round to 100.00. -/
def wgC1 : WeeklyGroups :=
  [(1, [[⟨some 1, PyVal.num (60001 / 1000)⟩, ⟨some 2, PyVal.num 50⟩]]),
   (2, [[⟨some 1, PyVal.num 40⟩, ⟨some 2, PyVal.num (50003 / 1000)⟩]])]

/-- Input refuting conservation of the rounded output sums: roster 1 beats
roster 2 and roster 3 with scores of 0.004 to 0; its points_for rounds to
0.01 while every other rounded field is 0. -/
def wgC7 : WeeklyGroups :=
  [(1, [[⟨some 1, PyVal.num (1 / 250)⟩, ⟨some 2, PyVal.num 0⟩]]),
   (2, [[⟨some 1, PyVal.num (1 / 250)⟩, ⟨some 3, PyVal.num 0⟩]])]

/-- Scenario A input of the specification: week 1 has roster 1 scoring 110
against roster 2 scoring 100, week 2 has roster 1 scoring 90 against
roster 2 scoring 95. -/
def wgA : WeeklyGroups :=
  [(1, [[⟨some 1, PyVal.num 110⟩, ⟨some 2, PyVal.num 100⟩]]),
   (2, [[⟨some 1, PyVal.num 90⟩, ⟨some 2, PyVal.num 95⟩]])]

theorem exceptBind_eq_ok {α β : Type} {x : Except Unit α} {f : α → Except Unit β} {b : β} :
    x >>= f = .ok b ↔ ∃ a, x = .ok a ∧ f a = .ok b := by
  cases x <;> simp [Bind.bind, Except.bind]

/-- C2: on the Scenario A input, aggregated over weeks 1–2, the aggregator
returns roster 1 with 1 win, 1 loss, 200 points for, 195 points against,
and roster 2 with 1 win, 1 loss, 195 points for, 200 points against, with
roster 1 ordered first (equal win_pct 0.5, higher points_for). -/
theorem standings_scenario_a :
    compute_standings_with_groups wgA 1 2 =
      .ok [⟨1, 1, 1, 0, 200, 195, 2, 1 / 2⟩, ⟨2, 1, 1, 0, 195, 200, 2, 1 / 2⟩] := by
  norm_num [compute_standings_with_groups, accumulate, weeksRange, lookupWeek, processWeek,
    processGroup, processPair, pairEntryStep, processOther, creditEntry, setdefault, updateRec,
    addPF, addPA, addWins, addLosses, addTies, newRec, pyFloat, orZero, pyTruthy, buildRow,
    roundTo, roundHalfEven, rowLEP, wgA, List.foldlM, List.find?, Except.bind, Bind.bind,
    Except.pure, Pure.pure, List.insertionSort, List.orderedInsert]

/-- C4: whenever the most recent recorded outcome at or before
`through_week` is a tie, `current_streak` returns exactly
`("none", 0, 0, through_week)`, whatever preceded the tie. -/
theorem current_streak_tie_at_cutoff (rl : List (Int × String)) (tw w : Int)
    (h : (rl.filter (fun t => t.1 ≤ tw)).getLast? = some (w, "T")) :
    current_streak rl tw = ("none", 0, 0, tw) := by
  unfold current_streak
  have hne : rl.filter (fun t => t.1 ≤ tw) ≠ [] := by
    intro he; rw [he] at h; simp at h
  have hh : (rl.filter (fun t => t.1 ≤ tw)).reverse.head? = some (w, "T") := by
    rw [List.head?_reverse]; exact h
  obtain ⟨rest, hrest⟩ : ∃ rest, (rl.filter (fun t => t.1 ≤ tw)).reverse = (w, "T") :: rest := by
    cases hr : (rl.filter (fun t => t.1 ≤ tw)).reverse with
    | nil => rw [hr] at hh; simp at hh
    | cons x rest =>
      rw [hr] at hh; simp at hh
      exact ⟨rest, by rw [hh]⟩
  rw [if_neg hne, hrest]
  simp [streakLoop]

/-- C4 witness: the sequence W at week 1, T at week 2, cut at week 2. -/
theorem current_streak_tie_at_cutoff_witness :
    ([((1 : Int), "W"), (2, "T")].filter (fun t => t.1 ≤ (2 : Int))).getLast? = some (2, "T") ∧
      current_streak [((1 : Int), "W"), (2, "T")] 2 = ("none", 0, 0, 2) :=
  ⟨by decide, current_streak_tie_at_cutoff [((1 : Int), "W"), (2, "T")] 2 2 (by decide)⟩

/-- C10: whenever `current_streak` reports a streak of type `"W"` or
`"L"`, the returned end week is the `through_week` cutoff itself, never the
week of the streak's actual last game. -/
theorem current_streak_end_is_through_week (rl : List (Int × String)) (tw : Int)
    (h : (current_streak rl tw).1 = "W" ∨ (current_streak rl tw).1 = "L") :
    (current_streak rl tw).2.2.2 = tw := by
  clear h
  unfold current_streak
  dsimp only
  split
  · rfl
  · split <;> rfl

/-- C10 witness: a single win recorded at week 1, queried through week 5 —
the streak is reported as type `"W"` ending at week 5, although the last
game was week 1. -/
theorem current_streak_end_is_through_week_witness :
    ((current_streak [((1 : Int), "W")] 5).1 = "W" ∨
        (current_streak [((1 : Int), "W")] 5).1 = "L") ∧
      (current_streak [((1 : Int), "W")] 5).2.2.2 = 5 :=
  ⟨Or.inl (by decide), current_streak_end_is_through_week [((1 : Int), "W")] 5 (Or.inl (by decide))⟩

/-- C9 counterexample: for the sequence win at week 1, loss at week 2, the
longest win streak is reported as `(1, "w1-w2")`: the label's end week 2 is
the week of the loss that broke the run, not a week the win run covered
(per the claim the label would have to be "w1-w1"). -/
theorem longest_streaks_label_counterexample :
    (longest_streaks [((1 : Int), "W"), (2, "L")] 2).1 = (1, "w1-w2") ∧
      (longest_streaks [((1 : Int), "W"), (2, "L")] 2).1.2 ≠ "w1-w1" := by
  decide

/-- C5 counterexample: in the `StatisticsCalculator` all-play computation,
roster 1 and roster 2 both scoring 100 in a week leaves roster 1 with 0
all-play wins and 0 all-play losses for that week — the equal score is
dropped, not split 0.5/0.5 as the claim states. -/
theorem sc_all_play_tie_dropped :
    sc_week_all_play 1 [(1, 100), (2, 100)] = (0, 0) := by decide

/-- C6 counterexample: in the `StatisticsCalculator` median computation, a
participant scoring 90 in a week whose scores are 100, 90, 80 (median 90)
gains a full +1 to the above-median counter and 0 to the below-median
counter, not +0.5 to both as the claim states. -/
theorem sc_median_tie_counts_above :
    pyMedian [100, 90, 80] = 90 ∧ sc_median_step 90 (pyMedian [100, 90, 80]) = (1, 0) := by
  decide

/-- C8 counterexample: an entry whose points value is the non-numeric
string "abc" makes the aggregator raise (the `or 0` guard passes the
truthy string through to `float()`, which fails), instead of coercing the
value to 0.0. -/
theorem nonnumeric_points_raise :
    compute_standings_with_groups [(1, [[⟨some 1, PyVal.str "abc"⟩, ⟨some 2, PyVal.num 100⟩]])] 1 1
      = .error () := by
  have hp : parseFloat? "abc" = Option.none := by decide
  have hT : pyTruthy (PyVal.str "abc") = true := by decide
  have h2 : pyFloat (PyVal.str "abc") = Except.error () := by simp [pyFloat, hp]
  have hne : ("abc" = "") = False := eq_false (by decide)
  norm_num [compute_standings_with_groups, accumulate, weeksRange, lookupWeek, processWeek,
    processGroup, processPair, pairEntryStep, creditEntry, setdefault, updateRec,
    addPF, addPA, newRec, pyFloat, orZero, pyTruthy, hT, h2, hne, hp,
    List.foldlM, List.find?, Except.bind, Bind.bind, Except.pure, Pure.pure]

/-- C1 counterexample: on `wgC1`, roster 2's unrounded accumulated
points_for (100.003) strictly exceeds roster 1's (100.001) with both at
win_pct 0.5, yet the returned standings list roster 1 first: the sort key
reads the fields rounded to 2 decimal places (both 100.00) and falls back
to ascending roster_id, so the order is not determined by the unrounded
points_for. -/
theorem standings_unrounded_tiebreak_counterexample :
    accumulate wgC1 1 2 =
      .ok [⟨1, 1, 1, 0, 100001 / 1000, 100003 / 1000⟩,
           ⟨2, 1, 1, 0, 100003 / 1000, 100001 / 1000⟩]
    ∧ (100001 / 1000 : ℚ) < 100003 / 1000
    ∧ compute_standings_with_groups wgC1 1 2 =
      .ok [⟨1, 1, 1, 0, 100, 100, 2, 1 / 2⟩, ⟨2, 1, 1, 0, 100, 100, 2, 1 / 2⟩] := by
  refine ⟨?_, by norm_num, ?_⟩ <;>
    norm_num [compute_standings_with_groups, accumulate, weeksRange, lookupWeek, processWeek,
      processGroup, processPair, pairEntryStep, creditEntry, setdefault, updateRec,
      addPF, addPA, addWins, addLosses, addTies, newRec, pyFloat, orZero, pyTruthy, buildRow,
      roundTo, roundHalfEven, rowLEP, wgC1, List.foldlM, List.find?, Except.bind, Bind.bind,
      Except.pure, Pure.pure, List.insertionSort, List.orderedInsert]

/-- C1 amended: whenever the aggregator returns a standings table, that
table is ordered by the key `(-win_pct, -points_for, roster_id)` read from
the returned rows — whose `points_for`/`win_pct` are the values rounded by
the table pass — and it is a permutation of the rounded rows built from
the unrounded accumulator records. Tie-breaks therefore compare the
rounded `points_for`, not the unrounded accumulation. -/
theorem standings_tiebreak_uses_rounded_points (wg : WeeklyGroups) (s e : Int)
    (t : List RowOut) (h : compute_standings_with_groups wg s e = .ok t) :
    t.Pairwise rowLEP ∧ ∀ recs, accumulate wg s e = .ok recs → t.Perm (recs.map buildRow) := by
  rw [compute_standings_with_groups, exceptBind_eq_ok] at h
  obtain ⟨recs0, h1, h2⟩ := h
  have ht : t = List.insertionSort rowLEP (recs0.map buildRow) := by
    simpa [Pure.pure, Except.pure] using h2.symm
  constructor
  · rw [ht]
    exact List.sorted_insertionSort rowLEP _
  · intro recs hrecs
    rw [h1] at hrecs
    cases hrecs
    rw [ht]
    exact List.perm_insertionSort rowLEP _

/-- C1 amended witness: the Scenario A input instantiates the theorem. -/
theorem standings_tiebreak_uses_rounded_points_witness :
    compute_standings_with_groups wgA 1 2 =
        .ok [⟨1, 1, 1, 0, 200, 195, 2, 1 / 2⟩, ⟨2, 1, 1, 0, 195, 200, 2, 1 / 2⟩] ∧
      List.Pairwise rowLEP
        [(⟨1, 1, 1, 0, 200, 195, 2, 1 / 2⟩ : RowOut), ⟨2, 1, 1, 0, 195, 200, 2, 1 / 2⟩] := by
  have hc : compute_standings_with_groups wgA 1 2 =
      .ok [⟨1, 1, 1, 0, 200, 195, 2, 1 / 2⟩, ⟨2, 1, 1, 0, 195, 200, 2, 1 / 2⟩] := by
    norm_num [compute_standings_with_groups, accumulate, weeksRange, lookupWeek, processWeek,
      processGroup, processPair, pairEntryStep, creditEntry, setdefault, updateRec,
      addPF, addPA, addWins, addLosses, addTies, newRec, pyFloat, orZero, pyTruthy, buildRow,
      roundTo, roundHalfEven, rowLEP, wgA, List.foldlM, List.find?, Except.bind, Bind.bind,
      Except.pure, Pure.pure, List.insertionSort, List.orderedInsert]
  exact ⟨hc, (standings_tiebreak_uses_rounded_points wgA 1 2 _ hc).1⟩

theorem getRec_setdefault_self (recs : List Rec) (rid : Int) :
    getRec (setdefault recs rid) rid = some ((getRec recs rid).getD (newRec rid)) := by
  unfold setdefault getRec
  split
  · rename_i hany
    rw [List.any_eq_true] at hany
    obtain ⟨r, hr, hp⟩ := hany
    have hs : (recs.find? (fun r => r.roster_id == rid)).isSome := by
      rw [List.find?_isSome]
      exact ⟨r, hr, hp⟩
    obtain ⟨r0, hr0⟩ := Option.isSome_iff_exists.mp hs
    rw [hr0]
    rfl
  · rename_i hany
    have hnone : recs.find? (fun r => r.roster_id == rid) = Option.none := by
      rw [List.find?_eq_none]
      intro x hx hpx
      exact hany (List.any_eq_true.mpr ⟨x, hx, hpx⟩)
    rw [List.find?_append, hnone]
    simp [newRec]

theorem getRec_setdefault_ne (recs : List Rec) (rid rid2 : Int) (h : rid2 ≠ rid) :
    getRec (setdefault recs rid) rid2 = getRec recs rid2 := by
  unfold setdefault getRec
  split
  · rfl
  · rw [List.find?_append]
    have hn : ([newRec rid].find? (fun r => r.roster_id == rid2)) = Option.none := by
      simp [newRec, Ne.symm h]
    rw [hn, Option.or_none]

theorem getRec_updateRec_self (recs : List Rec) (rid : Int) (f : Rec → Rec)
    (hf : ∀ r, (f r).roster_id = r.roster_id) :
    getRec (updateRec recs rid f) rid = (getRec recs rid).map f := by
  induction recs with
  | nil => rfl
  | cons r rs ih =>
    unfold updateRec
    split
    · rename_i hr
      have h1 : ((f r).roster_id == rid) = true := by simp [hf, hr]
      have h2 : (r.roster_id == rid) = true := by simp [hr]
      simp [getRec, List.find?, h1, h2]
    · rename_i hr
      have h1 : (r.roster_id == rid) = false := by simp [hr]
      simp only [getRec, List.find?, h1] at ih ⊢
      exact ih

theorem getRec_updateRec_ne (recs : List Rec) (rid rid2 : Int) (f : Rec → Rec)
    (hf : ∀ r, (f r).roster_id = r.roster_id) (h : rid2 ≠ rid) :
    getRec (updateRec recs rid f) rid2 = getRec recs rid2 := by
  induction recs with
  | nil => rfl
  | cons r rs ih =>
    unfold updateRec
    split
    · rename_i hr
      have h1 : (((f r).roster_id == rid2)) = false := by
        simp [hf, hr, Ne.symm h]
      have h2 : ((r.roster_id == rid2)) = false := by simp [hr, Ne.symm h]
      simp [getRec, List.find?, h1, h2]
    · rename_i hr
      by_cases h2 : r.roster_id = rid2
      · have h3 : (r.roster_id == rid2) = true := by simp [h2]
        simp [getRec, List.find?, h3]
      · have h3 : (r.roster_id == rid2) = false := by simp [h2]
        simp only [getRec, List.find?, h3] at ih ⊢
        exact ih

theorem getRec_creditEntry (recs : List Rec) (rid rid2 : Int) (own opp : ℚ) :
    getRec (creditEntry recs rid own opp) rid2 =
      if rid2 = rid then some (addPA opp (addPF own ((getRec recs rid).getD (newRec rid))))
      else getRec recs rid2 := by
  have hpa : ∀ r, (addPA opp r).roster_id = r.roster_id := fun r => rfl
  have hpf : ∀ r, (addPF own r).roster_id = r.roster_id := fun r => rfl
  unfold creditEntry
  by_cases h : rid2 = rid
  · subst h
    rw [if_pos rfl, getRec_updateRec_self _ _ _ hpa, getRec_updateRec_self _ _ _ hpf,
      getRec_setdefault_self]
    rfl
  · rw [if_neg h, getRec_updateRec_ne _ _ _ _ hpa h, getRec_updateRec_ne _ _ _ _ hpf h,
      getRec_setdefault_ne _ _ _ h]

theorem winsOf_creditEntry (recs : List Rec) (rid rid2 : Int) (own opp : ℚ) :
    winsOf (creditEntry recs rid own opp) rid2 = winsOf recs rid2 := by
  unfold winsOf
  rw [getRec_creditEntry]
  by_cases h : rid2 = rid
  · rw [if_pos h]
    subst h
    cases hg : getRec recs rid2 <;> simp [hg, addPA, addPF, newRec]
  · rw [if_neg h]

theorem lossesOf_creditEntry (recs : List Rec) (rid rid2 : Int) (own opp : ℚ) :
    lossesOf (creditEntry recs rid own opp) rid2 = lossesOf recs rid2 := by
  unfold lossesOf
  rw [getRec_creditEntry]
  by_cases h : rid2 = rid
  · rw [if_pos h]
    subst h
    cases hg : getRec recs rid2 <;> simp [hg, addPA, addPF, newRec]
  · rw [if_neg h]

theorem tiesOf_creditEntry (recs : List Rec) (rid rid2 : Int) (own opp : ℚ) :
    tiesOf (creditEntry recs rid own opp) rid2 = tiesOf recs rid2 := by
  unfold tiesOf
  rw [getRec_creditEntry]
  by_cases h : rid2 = rid
  · rw [if_pos h]
    subst h
    cases hg : getRec recs rid2 <;> simp [hg, addPA, addPF, newRec]
  · rw [if_neg h]

theorem pfOf_creditEntry (recs : List Rec) (rid rid2 : Int) (own opp : ℚ) :
    pfOf (creditEntry recs rid own opp) rid2 = pfOf recs rid2 + if rid2 = rid then own else 0 := by
  unfold pfOf
  rw [getRec_creditEntry]
  by_cases h : rid2 = rid
  · rw [if_pos h, if_pos h]
    subst h
    cases hg : getRec recs rid2 <;> simp [hg, addPA, addPF, newRec]
  · rw [if_neg h, if_neg h, add_zero]

theorem paOf_creditEntry (recs : List Rec) (rid rid2 : Int) (own opp : ℚ) :
    paOf (creditEntry recs rid own opp) rid2 = paOf recs rid2 + if rid2 = rid then opp else 0 := by
  unfold paOf
  rw [getRec_creditEntry]
  by_cases h : rid2 = rid
  · rw [if_pos h, if_pos h]
    subst h
    cases hg : getRec recs rid2 <;> simp [hg, addPA, addPF, newRec]
  · rw [if_neg h, if_neg h, add_zero]

theorem otherFold_fields (total : ℚ) (l : List (Option Int × ℚ)) :
    ∀ recs : List Rec, ∀ rid : Int,
      winsOf (l.foldl (fun rs e => otherEntryStep total rs (mkEntryQ e, e.2)) recs) rid
          = winsOf recs rid ∧
        lossesOf (l.foldl (fun rs e => otherEntryStep total rs (mkEntryQ e, e.2)) recs) rid
          = lossesOf recs rid ∧
        tiesOf (l.foldl (fun rs e => otherEntryStep total rs (mkEntryQ e, e.2)) recs) rid
          = tiesOf recs rid ∧
        pfOf (l.foldl (fun rs e => otherEntryStep total rs (mkEntryQ e, e.2)) recs) rid
          = pfOf recs rid + ownPoints l rid ∧
        paOf (l.foldl (fun rs e => otherEntryStep total rs (mkEntryQ e, e.2)) recs) rid
          = paOf recs rid
            + ((l.filter (fun e => e.1 == some rid)).map (fun e => total - e.2)).sum := by
  induction l with
  | nil => intro recs rid; simp [ownPoints]
  | cons e t ih =>
    intro recs rid
    rcases he : e.1 with _ | rid2
    · have hstep : otherEntryStep total recs (mkEntryQ e, e.2) = recs := by
        simp [otherEntryStep, mkEntryQ, he]
      have hfilter : (e :: t).filter (fun e => e.1 == some rid) =
          t.filter (fun e => e.1 == some rid) := by
        simp [List.filter, he]
      simp only [List.foldl_cons, hstep]
      refine ⟨(ih recs rid).1, (ih recs rid).2.1, (ih recs rid).2.2.1, ?_, ?_⟩
      · rw [(ih recs rid).2.2.2.1]
        unfold ownPoints
        rw [hfilter]
      · rw [(ih recs rid).2.2.2.2, hfilter]
    · have hstep : otherEntryStep total recs (mkEntryQ e, e.2) =
          creditEntry recs rid2 e.2 (total - e.2) := by
        simp [otherEntryStep, mkEntryQ, he]
      simp only [List.foldl_cons, hstep]
      obtain ⟨w1, l1, t1, p1, q1⟩ := ih (creditEntry recs rid2 e.2 (total - e.2)) rid
      refine ⟨?_, ?_, ?_, ?_, ?_⟩
      · rw [w1, winsOf_creditEntry]
      · rw [l1, lossesOf_creditEntry]
      · rw [t1, tiesOf_creditEntry]
      · rw [p1, pfOf_creditEntry]
        unfold ownPoints
        by_cases hr : rid = rid2
        · subst hr
          simp [List.filter, he]
          ring
        · have : (some rid2 == some rid) = false := by simp [Ne.symm hr]
          simp [List.filter, he, this, hr]
      · rw [q1, paOf_creditEntry]
        by_cases hr : rid = rid2
        · subst hr
          simp [List.filter, he]
          ring
        · have : (some rid2 == some rid) = false := by simp [Ne.symm hr]
          simp [List.filter, he, this, hr]

theorem pyFloat_orZero_num (q : ℚ) : pyFloat (orZero (PyVal.num q)) = .ok q := by
  by_cases h : q = 0
  · subst h
    simp [orZero, pyTruthy, pyFloat]
  · simp [orZero, pyTruthy, pyFloat, h]

theorem mapM_points_mkEntryQ (l : List (Option Int × ℚ)) :
    (l.map mkEntryQ).mapM (fun e => pyFloat (orZero e.points)) = .ok (l.map Prod.snd) := by
  induction l with
  | nil => rfl
  | cons e t ih =>
    simp only [List.map_cons, List.mapM_cons, mkEntryQ, pyFloat_orZero_num, ih]
    rfl

/-- C3: a matchup group whose entry count is not exactly 2 attributes no
win, loss or tie to anyone (every roster's counters are unchanged), while
every entry with a roster id still receives its own score in `points_for`
and the sum of the other entries' scores in `points_against`. -/
theorem non_pair_group_points_no_outcomes (recs : List Rec) (l : List (Option Int × ℚ))
    (hlen : l.length ≠ 2) (recs2 : List Rec)
    (hok : processGroup recs (l.map mkEntryQ) = .ok recs2) (rid : Int) :
    winsOf recs2 rid = winsOf recs rid ∧ lossesOf recs2 rid = lossesOf recs rid ∧
      tiesOf recs2 rid = tiesOf recs rid ∧
      pfOf recs2 rid = pfOf recs rid + ownPoints l rid ∧
      paOf recs2 rid = paOf recs rid + againstPoints l rid := by
  have hdisp : processGroup recs (l.map mkEntryQ) = processOther recs (l.map mkEntryQ) := by
    rcases l with _ | ⟨x, _ | ⟨y, _ | ⟨z, t⟩⟩⟩
    · rfl
    · rfl
    · exact absurd rfl hlen
    · rfl
  rw [hdisp] at hok
  unfold processOther at hok
  rw [mapM_points_mkEntryQ] at hok
  simp only [Bind.bind, Except.bind, Pure.pure, Except.pure, Except.ok.injEq] at hok
  rw [List.zip_map', List.foldl_map] at hok
  subst hok
  have := otherFold_fields ((l.map Prod.snd).sum) l recs rid
  exact ⟨this.1, this.2.1, this.2.2.1, this.2.2.2.1, this.2.2.2.2⟩

/-- C3 witness: a 3-entry group with scores 10, 20, 30 starting from empty
records, instantiated at roster 1. -/
theorem non_pair_group_points_no_outcomes_witness :
    ([((some 1 : Option Int), (10 : ℚ)), (some 2, 20), (some 3, 30)].length ≠ 2) ∧
      processGroup [] ([((some 1 : Option Int), (10 : ℚ)), (some 2, 20), (some 3, 30)].map mkEntryQ)
        = .ok [⟨1, 0, 0, 0, 10, 50⟩, ⟨2, 0, 0, 0, 20, 40⟩, ⟨3, 0, 0, 0, 30, 30⟩] ∧
      (winsOf [(⟨1, 0, 0, 0, 10, 50⟩ : Rec), ⟨2, 0, 0, 0, 20, 40⟩, ⟨3, 0, 0, 0, 30, 30⟩] 1
          = winsOf [] 1 ∧
        lossesOf [(⟨1, 0, 0, 0, 10, 50⟩ : Rec), ⟨2, 0, 0, 0, 20, 40⟩, ⟨3, 0, 0, 0, 30, 30⟩] 1
          = lossesOf [] 1 ∧
        tiesOf [(⟨1, 0, 0, 0, 10, 50⟩ : Rec), ⟨2, 0, 0, 0, 20, 40⟩, ⟨3, 0, 0, 0, 30, 30⟩] 1
          = tiesOf [] 1 ∧
        pfOf [(⟨1, 0, 0, 0, 10, 50⟩ : Rec), ⟨2, 0, 0, 0, 20, 40⟩, ⟨3, 0, 0, 0, 30, 30⟩] 1
          = pfOf [] 1 + ownPoints [((some 1 : Option Int), (10 : ℚ)), (some 2, 20), (some 3, 30)] 1 ∧
        paOf [(⟨1, 0, 0, 0, 10, 50⟩ : Rec), ⟨2, 0, 0, 0, 20, 40⟩, ⟨3, 0, 0, 0, 30, 30⟩] 1
          = paOf [] 1
            + againstPoints [((some 1 : Option Int), (10 : ℚ)), (some 2, 20), (some 3, 30)] 1) := by
  have hok : processGroup []
      ([((some 1 : Option Int), (10 : ℚ)), (some 2, 20), (some 3, 30)].map mkEntryQ)
      = .ok [⟨1, 0, 0, 0, 10, 50⟩, ⟨2, 0, 0, 0, 20, 40⟩, ⟨3, 0, 0, 0, 30, 30⟩] := by
    have hm := mapM_points_mkEntryQ [((some 1 : Option Int), (10 : ℚ)), (some 2, 20), (some 3, 30)]
    norm_num [mkEntryQ] at hm
    norm_num [processGroup, processOther, otherEntryStep, creditEntry, setdefault, updateRec,
      addPF, addPA, newRec, mkEntryQ, hm,
      Except.bind, Bind.bind, Except.pure, Pure.pure]
  exact ⟨by decide, hok,
    non_pair_group_points_no_outcomes [] _ (by decide) _ hok 1⟩

theorem sumPF_setdefault (recs : List Rec) (rid : Int) :
    sumPF (setdefault recs rid) = sumPF recs := by
  unfold setdefault sumPF
  split
  · rfl
  · simp [newRec]

theorem sumPA_setdefault (recs : List Rec) (rid : Int) :
    sumPA (setdefault recs rid) = sumPA recs := by
  unfold setdefault sumPA
  split
  · rfl
  · simp [newRec]

theorem sumPF_updateRec_of_pf_eq (recs : List Rec) (rid : Int) (f : Rec → Rec)
    (hf : ∀ r, (f r).points_for = r.points_for) :
    sumPF (updateRec recs rid f) = sumPF recs := by
  induction recs with
  | nil => rfl
  | cons r rs ih =>
    unfold updateRec
    split
    · simp [sumPF, hf]
    · simp only [sumPF, List.map_cons, List.sum_cons] at ih ⊢
      rw [ih]

theorem sumPA_updateRec_of_pa_eq (recs : List Rec) (rid : Int) (f : Rec → Rec)
    (hf : ∀ r, (f r).points_against = r.points_against) :
    sumPA (updateRec recs rid f) = sumPA recs := by
  induction recs with
  | nil => rfl
  | cons r rs ih =>
    unfold updateRec
    split
    · simp [sumPA, hf]
    · simp only [sumPA, List.map_cons, List.sum_cons] at ih ⊢
      rw [ih]

theorem sumPF_updateRec_addPF (recs : List Rec) (rid : Int) (x : ℚ)
    (h : (getRec recs rid).isSome) :
    sumPF (updateRec recs rid (addPF x)) = sumPF recs + x := by
  induction recs with
  | nil => simp [getRec] at h
  | cons r rs ih =>
    unfold updateRec
    split
    · simp [sumPF, addPF]
      ring
    · rename_i hr
      have h1 : (r.roster_id == rid) = false := by simp [hr]
      have h2 : (getRec rs rid).isSome := by
        unfold getRec at h ⊢
        simpa [List.find?, h1] using h
      simp only [sumPF, List.map_cons, List.sum_cons] at ih ⊢
      rw [ih h2]
      ring

theorem sumPA_updateRec_addPA (recs : List Rec) (rid : Int) (x : ℚ)
    (h : (getRec recs rid).isSome) :
    sumPA (updateRec recs rid (addPA x)) = sumPA recs + x := by
  induction recs with
  | nil => simp [getRec] at h
  | cons r rs ih =>
    unfold updateRec
    split
    · simp [sumPA, addPA]
      ring
    · rename_i hr
      have h1 : (r.roster_id == rid) = false := by simp [hr]
      have h2 : (getRec rs rid).isSome := by
        unfold getRec at h ⊢
        simpa [List.find?, h1] using h
      simp only [sumPA, List.map_cons, List.sum_cons] at ih ⊢
      rw [ih h2]
      ring

theorem sumPF_creditEntry (recs : List Rec) (rid : Int) (own opp : ℚ) :
    sumPF (creditEntry recs rid own opp) = sumPF recs + own := by
  unfold creditEntry
  rw [sumPF_updateRec_of_pf_eq _ _ (addPA opp) (fun r => rfl),
    sumPF_updateRec_addPF, sumPF_setdefault]
  rw [getRec_setdefault_self]
  rfl

theorem sumPA_creditEntry (recs : List Rec) (rid : Int) (own opp : ℚ) :
    sumPA (creditEntry recs rid own opp) = sumPA recs + opp := by
  unfold creditEntry
  have hpf : ∀ r, (addPF own r).roster_id = r.roster_id := fun r => rfl
  have hpres : (getRec (updateRec (setdefault recs rid) rid (addPF own)) rid).isSome := by
    rw [getRec_updateRec_self _ _ _ hpf, getRec_setdefault_self]
    rfl
  rw [sumPA_updateRec_addPA _ _ _ hpres,
    sumPA_updateRec_of_pa_eq _ _ (addPF own) (fun r => rfl), sumPA_setdefault]

theorem pairEntryStep_sums (e opp : Entry) (rid : Int) (he : e.roster_id = some rid)
    (recs recs2 : List Rec) (h : pairEntryStep recs e opp = .ok recs2) :
    ∃ ep op, pyFloat (orZero e.points) = .ok ep ∧ pyFloat (orZero opp.points) = .ok op ∧
      sumPF recs2 = sumPF recs + ep ∧ sumPA recs2 = sumPA recs + op := by
  unfold pairEntryStep at h
  rw [he] at h
  rw [exceptBind_eq_ok] at h
  obtain ⟨ep, hep, h⟩ := h
  rw [exceptBind_eq_ok] at h
  obtain ⟨op, hop, h⟩ := h
  simp only [Pure.pure, Except.pure, Except.ok.injEq] at h
  subst h
  exact ⟨ep, op, hep, hop, sumPF_creditEntry _ _ _ _, sumPA_creditEntry _ _ _ _⟩

theorem sums_updateRec_counts (recs : List Rec) (rid : Int) (f : Rec → Rec)
    (hf1 : ∀ r, (f r).points_for = r.points_for)
    (hf2 : ∀ r, (f r).points_against = r.points_against) :
    sumPF (updateRec recs rid f) = sumPF recs ∧ sumPA (updateRec recs rid f) = sumPA recs :=
  ⟨sumPF_updateRec_of_pf_eq _ _ _ hf1, sumPA_updateRec_of_pa_eq _ _ _ hf2⟩

theorem processPair_sums (a b : Entry) (ar br : Int) (ha : a.roster_id = some ar)
    (hb : b.roster_id = some br) (recs recs2 : List Rec)
    (h : processPair recs a b = .ok recs2) :
    ∃ ap bp, pyFloat (orZero a.points) = .ok ap ∧ pyFloat (orZero b.points) = .ok bp ∧
      sumPF recs2 = sumPF recs + ap + bp ∧ sumPA recs2 = sumPA recs + ap + bp := by
  unfold processPair at h
  rw [exceptBind_eq_ok] at h
  obtain ⟨r1, h1, h⟩ := h
  rw [exceptBind_eq_ok] at h
  obtain ⟨r2, h2, h⟩ := h
  rw [exceptBind_eq_ok] at h
  obtain ⟨ap, hap, h⟩ := h
  rw [exceptBind_eq_ok] at h
  obtain ⟨bp, hbp, h⟩ := h
  obtain ⟨ep1, op1, hep1, hop1, hs1, hs2⟩ := pairEntryStep_sums a b ar ha recs r1 h1
  obtain ⟨ep2, op2, hep2, hop2, hs3, hs4⟩ := pairEntryStep_sums b a br hb r1 r2 h2
  have e1 : ep1 = ap := Except.ok.inj (hep1.symm.trans hap)
  have e2 : ep2 = bp := Except.ok.inj (hep2.symm.trans hbp)
  have e3 : op1 = bp := Except.ok.inj (hop1.symm.trans hbp)
  have e4 : op2 = ap := Except.ok.inj (hop2.symm.trans hap)
  have hs5 : sumPF r2 = sumPF recs + ap + bp := by rw [hs3, hs1, e1, e2]
  have hs6 : sumPA r2 = sumPA recs + ap + bp := by rw [hs4, hs2, e3, e4]; ring
  refine ⟨ap, bp, hap, hbp, ?_⟩
  have hcounts : ∀ rid1 rid2 : Int, ∀ f g : Rec → Rec,
      (∀ r, (f r).points_for = r.points_for) → (∀ r, (f r).points_against = r.points_against) →
      (∀ r, (g r).points_for = r.points_for) → (∀ r, (g r).points_against = r.points_against) →
      sumPF (updateRec (updateRec r2 rid1 f) rid2 g) = sumPF recs + ap + bp ∧
        sumPA (updateRec (updateRec r2 rid1 f) rid2 g) = sumPA recs + ap + bp := by
    intro rid1 rid2 f g hf1 hf2 hg1 hg2
    rw [sumPF_updateRec_of_pf_eq _ _ _ hg1, sumPF_updateRec_of_pf_eq _ _ _ hf1,
      sumPA_updateRec_of_pa_eq _ _ _ hg2, sumPA_updateRec_of_pa_eq _ _ _ hf2]
    exact ⟨hs5, hs6⟩
  rw [ha, hb] at h
  dsimp only at h
  split at h
  · simp only [Pure.pure, Except.pure, Except.ok.injEq] at h
    subst h
    exact hcounts _ _ _ _ (fun r => rfl) (fun r => rfl) (fun r => rfl) (fun r => rfl)
  · split at h
    · simp only [Pure.pure, Except.pure, Except.ok.injEq] at h
      subst h
      exact hcounts _ _ _ _ (fun r => rfl) (fun r => rfl) (fun r => rfl) (fun r => rfl)
    · simp only [Pure.pure, Except.pure, Except.ok.injEq] at h
      subst h
      exact hcounts _ _ _ _ (fun r => rfl) (fun r => rfl) (fun r => rfl) (fun r => rfl)

theorem foldlM_except_inv {α β : Type} (P : β → Prop) (f : β → α → Except Unit β)
    (l : List α) (hstep : ∀ b x, x ∈ l → P b → ∀ b2, f b x = .ok b2 → P b2) :
    ∀ b0 r, P b0 → l.foldlM f b0 = .ok r → P r := by
  induction l with
  | nil =>
    intro b0 r h0 h
    simp only [List.foldlM_nil, Pure.pure, Except.pure, Except.ok.injEq] at h
    exact h ▸ h0
  | cons x t ih =>
    intro b0 r h0 h
    rw [List.foldlM_cons, exceptBind_eq_ok] at h
    obtain ⟨b1, hb1, h⟩ := h
    exact ih (fun b y hy => hstep b y (List.mem_cons_of_mem _ hy)) b1 r
      (hstep b0 x (List.mem_cons_self _ _) h0 b1 hb1) h

theorem accumulate_conservation (wg : WeeklyGroups) (s e : Int) (hap : allPairs wg s e)
    (recs : List Rec) (h : accumulate wg s e = .ok recs) : sumPF recs = sumPA recs := by
  unfold accumulate at h
  refine foldlM_except_inv (fun rs => sumPF rs = sumPA rs) _ _ ?_ [] recs rfl h
  intro rs wk hwk hP rs2 hstepw
  unfold processWeek at hstepw
  refine foldlM_except_inv (fun x => sumPF x = sumPA x) _ _ ?_ rs rs2 hP hstepw
  intro rs3 g hg hP3 rs4 hg4
  obtain ⟨hlen, hall⟩ := hap wk hwk g hg
  rcases g with _ | ⟨a, _ | ⟨b, _ | ⟨c, t⟩⟩⟩
  · simp at hlen
  · simp at hlen
  · have ha := hall a (by simp)
    have hb := hall b (by simp)
    obtain ⟨ar, har⟩ := Option.isSome_iff_exists.mp ha
    obtain ⟨br, hbr⟩ := Option.isSome_iff_exists.mp hb
    obtain ⟨ap2, bp2, _, _, h5, h6⟩ := processPair_sums a b ar br har hbr rs3 rs4 hg4
    rw [h5, h6, hP3]
  · simp at hlen

/-- C7 amended: every returned row satisfies `games = wins + losses +
ties` (for any input), and for inputs whose in-range groups are all
two-entry with roster ids present, the unrounded accumulated `points_for`
and `points_against` totals over all participants are equal. (The rounded
output fields can break the second equality; see the counterexample.) -/
theorem standings_games_and_conservation (wg : WeeklyGroups) (s e : Int) :
    (∀ t, compute_standings_with_groups wg s e = .ok t →
        ∀ r ∈ t, r.games = r.wins + r.losses + r.ties) ∧
      (allPairs wg s e → ∀ recs, accumulate wg s e = .ok recs → sumPF recs = sumPA recs) := by
  constructor
  · intro t ht r hr
    rw [compute_standings_with_groups, exceptBind_eq_ok] at ht
    obtain ⟨recs0, h1, h2⟩ := ht
    have ht2 : t = List.insertionSort rowLEP (recs0.map buildRow) := by
      simpa [Pure.pure, Except.pure] using h2.symm
    rw [ht2, List.mem_insertionSort] at hr
    obtain ⟨rec, hrec, rfl⟩ := List.mem_map.mp hr
    rfl
  · intro h1 recs h2
    exact accumulate_conservation wg s e h1 recs h2

/-- C7 counterexample: on `wgC7` every in-range group is a two-entry
matchup with roster ids, yet the returned standings have total points_for
0.01 and total points_against 0: per-participant rounding to 2 decimals
(0.008 rounds to 0.01, 0.004 rounds to 0) breaks the claimed equality of
the output sums. -/
theorem rounded_conservation_counterexample :
    allPairs wgC7 1 2 ∧
      compute_standings_with_groups wgC7 1 2 =
        .ok [⟨1, 2, 0, 0, 1 / 100, 0, 2, 1⟩, ⟨2, 0, 1, 0, 0, 0, 1, 0⟩, ⟨3, 0, 1, 0, 0, 0, 1, 0⟩] ∧
      ¬ (([(⟨1, 2, 0, 0, 1 / 100, 0, 2, 1⟩ : RowOut), ⟨2, 0, 1, 0, 0, 0, 1, 0⟩,
            ⟨3, 0, 1, 0, 0, 0, 1, 0⟩].map RowOut.points_for).sum =
          ([(⟨1, 2, 0, 0, 1 / 100, 0, 2, 1⟩ : RowOut), ⟨2, 0, 1, 0, 0, 0, 1, 0⟩,
            ⟨3, 0, 1, 0, 0, 0, 1, 0⟩].map RowOut.points_against).sum) := by
  refine ⟨by unfold allPairs; decide, ?_, by norm_num⟩
  norm_num [compute_standings_with_groups, accumulate, weeksRange, lookupWeek, processWeek,
    processGroup, processPair, pairEntryStep, creditEntry, setdefault, updateRec,
    addPF, addPA, addWins, addLosses, addTies, newRec, pyFloat, orZero, pyTruthy, buildRow,
    roundTo, roundHalfEven, rowLEP, wgC7, List.foldlM, List.find?, Except.bind, Bind.bind,
    Except.pure, Pure.pure, List.insertionSort, List.orderedInsert]

/-- C7 amended witness: Scenario A instantiates both conjuncts. -/
theorem standings_games_and_conservation_witness :
    compute_standings_with_groups wgA 1 2 =
        .ok [⟨1, 1, 1, 0, 200, 195, 2, 1 / 2⟩, ⟨2, 1, 1, 0, 195, 200, 2, 1 / 2⟩] ∧
      (∀ r ∈ [(⟨1, 1, 1, 0, 200, 195, 2, 1 / 2⟩ : RowOut), ⟨2, 1, 1, 0, 195, 200, 2, 1 / 2⟩],
          r.games = r.wins + r.losses + r.ties) ∧
      allPairs wgA 1 2 ∧
      accumulate wgA 1 2 = .ok [⟨1, 1, 1, 0, 200, 195⟩, ⟨2, 1, 1, 0, 195, 200⟩] ∧
      sumPF [(⟨1, 1, 1, 0, 200, 195⟩ : Rec), ⟨2, 1, 1, 0, 195, 200⟩]
        = sumPA [(⟨1, 1, 1, 0, 200, 195⟩ : Rec), ⟨2, 1, 1, 0, 195, 200⟩] := by
  have hacc : accumulate wgA 1 2 = .ok [⟨1, 1, 1, 0, 200, 195⟩, ⟨2, 1, 1, 0, 195, 200⟩] := by
    norm_num [accumulate, weeksRange, lookupWeek, processWeek,
      processGroup, processPair, pairEntryStep, creditEntry, setdefault, updateRec,
      addPF, addPA, addWins, addLosses, addTies, newRec, pyFloat, orZero, pyTruthy, wgA,
      List.foldlM, List.find?, Except.bind, Bind.bind, Except.pure, Pure.pure]
  have hcomp : compute_standings_with_groups wgA 1 2 =
      .ok [⟨1, 1, 1, 0, 200, 195, 2, 1 / 2⟩, ⟨2, 1, 1, 0, 195, 200, 2, 1 / 2⟩] := by
    norm_num [compute_standings_with_groups, hacc, buildRow, roundTo, roundHalfEven, rowLEP,
      Except.bind, Bind.bind, Except.pure, Pure.pure, List.insertionSort, List.orderedInsert]
  have hap : allPairs wgA 1 2 := by unfold allPairs; decide
  exact ⟨hcomp, fun r hr => (standings_games_and_conservation wgA 1 2).1 _ hcomp r hr, hap,
    hacc, (standings_games_and_conservation wgA 1 2).2 hap _ hacc⟩

/-- C8 amended: an entry whose points value is `None` (or any falsy
value) is coerced to 0.0 by the `or 0` guard and the week's aggregation
proceeds normally: against an opponent scoring `q > 0` the entry records a
loss with 0 points for and `q` (rounded) points against. -/
theorem falsy_points_coerce_to_zero (q : ℚ) (hq : 0 < q) :
    compute_standings_with_groups [(1, [[⟨some 1, PyVal.none⟩, ⟨some 2, PyVal.num q⟩]])] 1 1
      = .ok [⟨2, 1, 0, 0, roundTo 2 q, roundTo 2 0, 1, roundTo 4 1⟩,
             ⟨1, 0, 1, 0, roundTo 2 0, roundTo 2 q, 1, roundTo 4 0⟩] := by
  have hqz : q ≠ 0 := ne_of_gt hq
  have hnl : ¬ (q < 0) := not_lt.mpr (le_of_lt hq)
  have h40 : roundTo 4 (0 : ℚ) = 0 := by norm_num [roundTo, roundHalfEven]
  have h41 : roundTo 4 (1 : ℚ) = 1 := by norm_num [roundTo, roundHalfEven]
  have h20 : roundTo 2 (0 : ℚ) = 0 := by norm_num [roundTo, roundHalfEven]
  norm_num [h40, h41, h20, compute_standings_with_groups, accumulate, weeksRange, lookupWeek, processWeek,
    processGroup, processPair, pairEntryStep, creditEntry, setdefault, updateRec,
    addPF, addPA, addWins, addLosses, addTies, newRec, pyFloat, orZero, pyTruthy, buildRow,
    rowLEP, hq, hqz, hnl, List.foldlM, List.find?, Except.bind, Bind.bind,
    Except.pure, Pure.pure, List.insertionSort, List.orderedInsert]

/-- C8 amended witness: the family at `q = 100`. -/
theorem falsy_points_coerce_to_zero_witness :
    (0 : ℚ) < 100 ∧
      compute_standings_with_groups [(1, [[⟨some 1, PyVal.none⟩, ⟨some 2, PyVal.num 100⟩]])] 1 1
        = .ok [⟨2, 1, 0, 0, roundTo 2 100, roundTo 2 0, 1, roundTo 4 1⟩,
               ⟨1, 0, 1, 0, roundTo 2 0, roundTo 2 100, 1, roundTo 4 0⟩] :=
  ⟨by norm_num, falsy_points_coerce_to_zero 100 (by norm_num)⟩

theorem lsStep_win_extend (a : Int) (st : LSState) (h : st.cur_type = some "W") :
    lsStep st (a, "W") = { st with cur_len := st.cur_len + 1 } := by
  unfold lsStep
  rw [if_neg (show ¬("W" : String) = "T" by decide), if_pos (by rw [h])]

theorem lsLoop_winRun (n : ℕ) (a : Int) (st : LSState) (h : st.cur_type = some "W") :
    (winRun a n).foldl lsStep st = { st with cur_len := st.cur_len + n } := by
  induction n generalizing a st with
  | zero => simp [winRun]
  | succ m ih =>
    rw [winRun, List.foldl_cons, lsStep_win_extend a st h,
      ih (a + 1) { st with cur_len := st.cur_len + 1 } h]
    simp [LSState.mk.injEq]
    ring

theorem ls_first_win (a : Int) (bw bl : Int × String) :
    lsStep ⟨bw, bl, Option.none, 0, 0⟩ (a, "W") = ⟨bw, bl, some "W", 1, a⟩ := by
  unfold lsStep lsFinalize
  rw [if_neg (show ¬("W" : String) = "T" by decide), if_neg (by simp)]
  simp

theorem winRun_mem (a : Int) (n : ℕ) (x : Int × String) (hx : x ∈ winRun a n) :
    ∃ i : ℕ, i < n ∧ x = (a + (i : Int), "W") := by
  induction n generalizing a with
  | zero => simp [winRun] at hx
  | succ m ih =>
    rw [winRun] at hx
    rcases List.mem_cons.mp hx with h1 | h1
    · exact ⟨0, by omega, by simpa using h1⟩
    · obtain ⟨i, hi, hx2⟩ := ih (a + 1) h1
      refine ⟨i + 1, by omega, ?_⟩
      rw [hx2]
      congr 1
      push_cast
      ring

/-- C9 amended: for a run of `n ≥ 1` wins starting at week `a`, the
longest-win-streak label starts at `a` (the run's first game) but ends at
the week of the game that terminated the run — the breaking loss at week
`b` — or at `through_week` when the run is still alive at the end of the
sequence. The end label is not the week of the run's last win. -/
theorem longest_streaks_span_boundaries (a b tw : Int) (n : ℕ) (hn : 1 ≤ n)
    (hw : ∀ i : ℕ, i < n → a + (i : Int) ≤ tw) (hb : b ≤ tw) :
    (longest_streaks (winRun a n ++ [(b, "L")]) tw).1 = ((n : Int), spanLabel a b)
    ∧ (longest_streaks (winRun a n) tw).1 = ((n : Int), spanLabel a tw) := by
  obtain ⟨m, rfl⟩ : ∃ m, n = m + 1 := ⟨n - 1, by omega⟩
  have hfilter1 : (winRun a (m + 1)).filter (fun t => t.1 ≤ tw) = winRun a (m + 1) := by
    rw [List.filter_eq_self]
    intro x hx
    obtain ⟨i, hi, rfl⟩ := winRun_mem a (m + 1) x hx
    simpa using hw i hi
  have hfilter2 : ((winRun a (m + 1)) ++ [(b, "L")]).filter (fun t => t.1 ≤ tw)
      = winRun a (m + 1) ++ [(b, "L")] := by
    rw [List.filter_append, hfilter1]
    simp [hb]
  have hfold : (winRun a (m + 1)).foldl lsStep ⟨(0, "-"), (0, "-"), Option.none, 0, 0⟩
      = ⟨(0, "-"), (0, "-"), some "W", 1 + m, a⟩ := by
    rw [winRun, List.foldl_cons, ls_first_win, lsLoop_winRun m (a + 1) _ rfl]
  have hlen_pos : (0 : Int) < 1 + m := by positivity
  constructor
  · unfold longest_streaks
    rw [hfilter2]
    dsimp only
    rw [List.foldl_append, hfold]
    have hstepL : lsStep ⟨(0, "-"), (0, "-"), some "W", 1 + m, a⟩ (b, "L")
        = ⟨(1 + m, spanLabel a b), (0, "-"), some "L", 1, b⟩ := by
      unfold lsStep lsFinalize
      rw [if_neg (show ¬("L" : String) = "T" by decide), if_neg (by simp)]
      simp [hlen_pos]
    rw [List.foldl_cons, List.foldl_nil, hstepL]
    unfold lsFinalize
    simp [LSState.mk.injEq]
    ring
  · unfold longest_streaks
    rw [hfilter1]
    dsimp only
    rw [hfold]
    unfold lsFinalize
    simp [hlen_pos]
    ring

/-- C9 amended witness: wins at weeks 1 and 2, loss at week 3, cut at
week 4: the win streak is labelled "w1-w3" when broken and "w1-w4" when
still alive. -/
theorem longest_streaks_span_boundaries_witness :
    ((1 : ℕ) ≤ 2) ∧
      (longest_streaks (winRun 1 2 ++ [((3 : Int), "L")]) 4).1 = ((2 : Int), spanLabel 1 3) ∧
      (longest_streaks (winRun 1 2) 4).1 = ((2 : Int), spanLabel 1 4) :=
  ⟨by omega,
    (longest_streaks_span_boundaries 1 3 4 2 (by omega) (fun i hi => by omega) (by omega)).1,
    (longest_streaks_span_boundaries 1 3 4 2 (by omega) (fun i hi => by omega) (by omega)).2⟩

theorem length_filter_partition (score : ℚ) (scores : List ℚ) :
    (scores.filter (fun s => s < score)).length + (scores.filter (fun s => score < s)).length
        + (scores.filter (fun s => s = score)).length = scores.length := by
  induction scores with
  | nil => rfl
  | cons s t ih =>
    rcases lt_trichotomy s score with h | h | h
    · simp only [List.filter_cons]
      rw [if_pos (by simpa using h), if_neg (by simpa using lt_asymm h),
        if_neg (by simpa using ne_of_lt h)]
      simp only [List.length_cons]
      omega
    · simp only [List.filter_cons]
      rw [if_neg (by simp [h]), if_neg (by simp [h]), if_pos (by simpa using h)]
      simp only [List.length_cons]
      omega
    · simp only [List.filter_cons]
      rw [if_neg (by simpa using lt_asymm h), if_pos (by simpa using h),
        if_neg (by simpa using (ne_of_gt h))]
      simp only [List.length_cons]
      omega

theorem sc_count_characterization (wl : Int × Int) (my : ℚ) (l : List ℚ) :
    sc_count wl my l = (wl.1 + ((l.filter (fun s => s < my)).length : Int),
      wl.2 + ((l.filter (fun s => my < s)).length : Int)) := by
  induction l generalizing wl with
  | nil => simp [sc_count]
  | cons s t ih =>
    unfold sc_count at ih ⊢
    rw [List.foldl_cons]
    rcases lt_trichotomy s my with h | h | h
    · rw [if_pos h, ih]
      simp only [List.filter_cons]
      rw [if_pos (by simpa using h), if_neg (by simpa using lt_asymm h)]
      simp only [List.length_cons, Prod.mk.injEq]
      constructor
      · push_cast
        ring
      · trivial
    · rw [if_neg (by simp [h]), if_neg (by simp [h]), ih]
      simp only [List.filter_cons]
      rw [if_neg (by simp [h]), if_neg (by simp [h])]
    · rw [if_neg (by simpa using lt_asymm h), if_pos h, ih]
      simp only [List.filter_cons]
      rw [if_neg (by simpa using lt_asymm h), if_pos (by simpa using h)]
      simp only [List.length_cons, Prod.mk.injEq]
      constructor
      · trivial
      · push_cast
        ring

/-- C5 amended: in the weekly-context all-play computation a participant's
weekly all-play wins are the strictly-lower scores plus half the other
equal scores, and the losses are the strictly-higher scores plus the same
half share (the ties split 0.5/0.5); in the `StatisticsCalculator`
comparison loop, the counters collect only the strictly-lower and
strictly-higher scores — equal scores are dropped. -/
theorem all_play_tie_handling (score : ℚ) (scores : List ℚ) (my : ℚ) (all_scores : List ℚ) :
    (all_play_week score scores).1
        = ((scores.filter (fun s => s < score)).length : ℚ)
          + (1 / 2) * (((scores.filter (fun s => s = score)).length : ℚ) - 1)
    ∧ (all_play_week score scores).2
        = ((scores.filter (fun s => score < s)).length : ℚ)
          + (1 / 2) * (((scores.filter (fun s => s = score)).length : ℚ) - 1)
    ∧ sc_count (0, 0) my all_scores
        = (((all_scores.filter (fun s => s < my)).length : Int),
           ((all_scores.filter (fun s => my < s)).length : Int)) := by
  refine ⟨rfl, ?_, by rw [sc_count_characterization]; simp⟩
  have hp := length_filter_partition score scores
  have hq : ((scores.filter (fun s => s < score)).length : ℚ)
      + ((scores.filter (fun s => score < s)).length : ℚ)
      + ((scores.filter (fun s => s = score)).length : ℚ) = (scores.length : ℚ) := by
    exact_mod_cast hp
  unfold all_play_week
  dsimp only
  rw [← hq]
  ring

theorem pyMedian_mem_of_odd (scores : List ℚ) (h : scores.length % 2 = 1) :
    pyMedian scores ∈ scores := by
  unfold pyMedian
  dsimp only
  rw [if_pos h]
  have hmid : scores.length / 2 < (List.insertionSort (fun a b : ℚ => a ≤ b) scores).length := by
    rw [List.length_insertionSort]
    omega
  rw [List.getD_eq_getElem _ _ hmid]
  exact ((List.perm_insertionSort _ scores).mem_iff).mp (List.getElem_mem _)

/-- C6 amended: the weekly-context median update gives +1 above for a
score strictly above the median, +1 below for strictly below, and 0.5/0.5
on equality, always contributing exactly one game; the
`StatisticsCalculator` update gives a full +1 above on equality; and for
an odd number of scores the computed median is one of the scores. -/
theorem median_tie_handling (s m : ℚ) (scores : List ℚ) :
    (s = m → ctx_median_step s m = (1 / 2, 1 / 2))
    ∧ (m < s → ctx_median_step s m = (1, 0))
    ∧ (s < m → ctx_median_step s m = (0, 1))
    ∧ (ctx_median_step s m).1 + (ctx_median_step s m).2 = 1
    ∧ (s = m → sc_median_step s m = (1, 0))
    ∧ (scores.length % 2 = 1 → pyMedian scores ∈ scores) := by
  refine ⟨?_, ?_, ?_, ?_, ?_, pyMedian_mem_of_odd scores⟩
  · intro h
    subst h
    simp [ctx_median_step]
  · intro h
    simp [ctx_median_step, h]
  · intro h
    simp [ctx_median_step, h, lt_asymm h]
  · rcases lt_trichotomy s m with h | h | h
    · simp [ctx_median_step, h, lt_asymm h]
    · subst h
      simp [ctx_median_step]
      norm_num
    · simp [ctx_median_step, h]
  · intro h
    subst h
    simp [sc_median_step]

/-- C6 amended witness: a score of 90 against median 90 of the week
100, 90, 80. -/
theorem median_tie_handling_witness :
    ctx_median_step 90 90 = (1 / 2, 1 / 2) ∧ sc_median_step 90 90 = (1, 0) ∧
      pyMedian [100, 90, 80] ∈ ([100, 90, 80] : List ℚ) :=
  ⟨(median_tie_handling 90 90 [100, 90, 80]).1 rfl,
    (median_tie_handling 90 90 [100, 90, 80]).2.2.2.2.1 rfl,
    (median_tie_handling 90 90 [100, 90, 80]).2.2.2.2.2 (by decide)⟩
